import Mathlib

/-!
Verification of the DC/resistive analysis core of the JCircuit server
(`server/src/JCircuitServer.jl`): shallow embedding of the Modified Nodal
Analysis (MNA) pipeline — ground identification, system assembly with
independent and controlled sources, sensing-branch synthesis,
duplicate-branch regularization, the staged linear-solver fallback, result
extraction, the Thévenin analyzer, and the delegating branch-current /
mesh-current entry points — together with theorems settling the frozen
claims about that code.

Modelling conventions:
* Julia `Float64` values are modelled as exact rationals `ℚ`; the float
  literals `1e-12`, `1e-6`, `1e12` become the exact rationals `10⁻¹²`,
  `10⁻⁶`, `10¹²`.
* Julia `Dict{String,T}` payload fields become association lists with
  first-match lookup (payload dictionaries are assumed duplicate-free,
  which the caller guarantees).
* A Julia exception becomes an `Except` error value: `ValidationError`
  keeps its message and structured data, a `KeyError` from direct `Dict`
  indexing keeps the missing key.
* The external linear-algebra backend (`A \ b`, which may throw
  `SingularException`, and `pinv`) is a parameter of the embedding: the
  staged fallback logic around it is translated from the source.
* Matrices use 1-based indices exactly as the Julia code does, as total
  functions `ℕ → ℕ → ℚ` (entries outside the active block are never read).
-/

namespace JCircuit

/-- Small ridge / regularization constant: exact model of the float literal
`1e-12` used by the source. -/
def eps12 : ℚ := 1 / 1000000000000

/-- The near-short resistance `1e-6` used by the Thévenin analyzer. -/
def shortRes : ℚ := 1 / 1000000

/-- The open-port sentinel resistance `1e12` used by the Thévenin analyzer. -/
def bigRes : ℚ := 1000000000000

/-- Byte/codepoint lexicographic order on character lists, mirroring Julia's
`isless` on `String` (UTF-8 byte order, which equals codepoint order). -/
def charListLt : List Char → List Char → Bool
  | [], [] => false
  | [], _ :: _ => true
  | _ :: _, [] => false
  | a :: as, b :: bs =>
    if a.toNat < b.toNat then true
    else if b.toNat < a.toNat then false
    else charListLt as bs

/-- Executable string comparison used for `sort` and for the unordered
node-pair canonicalization `p < q` in the source. -/
def strLt (a b : String) : Bool := charListLt a.data b.data

/-- Insert into a sorted list (by `strLt`); used to model Julia `sort`. -/
def insortStr (x : String) : List String → List String
  | [] => [x]
  | y :: ys => if strLt y x then y :: insortStr x ys else x :: y :: ys

/-- Sort a list of strings lexicographically, as Julia `sort(collect(s))`. -/
def sortStrs (l : List String) : List String := l.foldr insortStr []

/-- Insertion into a Julia `Set` modelled as a duplicate-free list that
keeps first-insertion order. -/
def insertSet (s : List String) (x : String) : List String :=
  if x ∈ s then s else s ++ [x]

/-- One-based index of the first occurrence of `s`, modelling the Julia
`Dict(v => i for (i, v) in enumerate(l))` index maps. -/
def idx1 : List String → String → Option ℕ
  | [], _ => none
  | x :: xs, s => if x = s then some 1 else (idx1 xs s).map (· + 1)

/-- Errors thrown by the embedded code: `ValidationError` (message plus
structured data) and `KeyError` from direct `Dict` indexing, plus a
catch-all for rethrown solver exceptions. -/
inductive JErr where
  | validation (msg : String) (data : List (String × String))
  | keyError (key : String)
  | other (msg : String)
deriving DecidableEq, Repr

/-- Failure of the external backend solve `A \ b`: the singular-matrix
condition, or any other exception (which the source rethrows). -/
inductive SolveErr where
  | singular
  | other (msg : String)
deriving DecidableEq, Repr

/-- Decidable equality of `Except` results, for evaluating concrete runs of
the embedded code inside proofs. -/
instance {ε α : Type} [DecidableEq ε] [DecidableEq α] :
    DecidableEq (Except ε α) := fun x y =>
  match x, y with
  | Except.ok a, Except.ok b =>
    if h : a = b then Decidable.isTrue (by rw [h])
    else Decidable.isFalse (by simp [h])
  | Except.error e, Except.error f =>
    if h : e = f then Decidable.isTrue (by rw [h])
    else Decidable.isFalse (by simp [h])
  | Except.ok _, Except.error _ => Decidable.isFalse (by simp)
  | Except.error _, Except.ok _ => Decidable.isFalse (by simp)

/-- Reduction of a successful bind in the `Except` monad. -/
@[simp] theorem ok_bind {ε α β : Type} (a : α) (f : α → Except ε β) :
    (Except.ok a >>= f : Except ε β) = f a := rfl

/-- Reduction of a failing bind in the `Except` monad. -/
@[simp] theorem error_bind {ε α β : Type} (e : ε) (f : α → Except ε β) :
    (Except.error e >>= f : Except ε β) = Except.error e := rfl

/-- `ComponentPayload` of the source: id, type tag, parameter dictionary and
terminal-to-net dictionary. -/
structure ComponentPayload where
  id : String
  type : String
  parameters : List (String × ℚ)
  connections : List (String × String)
deriving DecidableEq, Repr

/-- `NetPayload` of the source: net name and its `(component id, terminal)`
members. -/
structure NetPayload where
  name : String
  nodes : List (String × String)
deriving DecidableEq, Repr

/-- `SimulationSettings` of the source (only carried through; the DC path
never reads it). -/
structure SimulationSettings where
  t_stop : ℚ
  n_samples : ℕ
deriving DecidableEq, Repr

/-- `SimulationPayload` of the source. -/
structure SimulationPayload where
  components : List ComponentPayload
  nets : List NetPayload
  sim : SimulationSettings
  method : Option String
  thevenin_port : Option (List (String × String))
  teaching_mode : Option Bool
deriving DecidableEq, Repr

/-- Direct `Dict` indexing `d[k]`: `KeyError` when the key is absent. -/
def dget {α : Type} (d : List (String × α)) (k : String) : Except JErr α :=
  match d.lookup k with
  | some v => Except.ok v
  | none => Except.error (JErr.keyError k)

/-- Julia `get(d, k, default)`. -/
def getD {α : Type} (d : List (String × α)) (k : String) (dflt : α) : α :=
  (d.lookup k).getD dflt

/-- `require_parameter` (source lines 377-381): a `ValidationError` naming
the offending component and the missing parameter key. -/
def require_parameter (component : ComponentPayload) (key : String) :
    Except JErr ℚ :=
  match component.parameters.lookup key with
  | some v => Except.ok v
  | none =>
    Except.error (JErr.validation ("缺少元件参数 " ++ key)
      [("component", component.id), ("parameter", key)])

/-- `is_resistive_circuit` (source lines 829-832): eligibility predicate for
the linear DC path. -/
def is_resistive_circuit (payload : SimulationPayload) : Bool :=
  payload.components.all fun comp =>
    comp.type ∈ ["resistor", "vsource_dc", "isource_dc", "ground",
      "voltage_probe", "current_probe", "vccs", "vcvs", "ccvs", "cccs"]

/-- The `Set{String}` of nets that `ground` components' `gnd` terminals
connect to (source lines 846-851). -/
def groundNets (payload : SimulationPayload) : List String :=
  payload.components.foldl
    (fun s comp =>
      if comp.type = "ground" then
        match comp.connections.lookup "gnd" with
        | some net => insertSet s net
        | none => s
      else s) []

/-- Whether some declared net is literally named `"gnd"`. -/
def declaredGnd (payload : SimulationPayload) : Bool :=
  payload.nets.any fun net => net.name = "gnd"

/-- Ground-net identification, solve_by_node_voltage step 1 (source lines
845-861): prefer a net literally named `"gnd"`; otherwise the net a
`ground` component's `gnd` terminal connects to; `ValidationError` when no
candidate exists, or when several ground components disagree while no net
is named `"gnd"`. -/
def identify_ground (payload : SimulationPayload) : Except JErr String :=
  let ground_nets : List String := groundNets payload
  let declared_gnd : Bool := declaredGnd payload
  let ground_name : Option String :=
    if declared_gnd then some "gnd" else ground_nets.head?
  match ground_name with
  | none => Except.error (JErr.validation "缺少地线节点" [])
  | some g =>
    if 1 < ground_nets.length ∧ ¬ declared_gnd then
      Except.error (JErr.validation "存在多个地线且连接到不同网络"
        [("ground_nets", String.intercalate "," ground_nets)])
    else Except.ok g

/-- Dense MNA matrix, 1-based indices as in the Julia source. -/
abbrev QMat : Type := ℕ → ℕ → ℚ

/-- Right-hand side / solution vector, 1-based indices. -/
abbrev QVec : Type := ℕ → ℚ

/-- `A[i, j] += v`. -/
def addA (A : QMat) (i j : ℕ) (v : ℚ) : QMat :=
  fun i' j' => if i' = i ∧ j' = j then A i j + v else A i' j'

/-- `b[i] += v`. -/
def addB (b : QVec) (i : ℕ) (v : ℚ) : QVec :=
  fun i' => if i' = i then b i + v else b i'

/-- `b[i] = v`. -/
def setB (b : QVec) (i : ℕ) (v : ℚ) : QVec :=
  fun i' => if i' = i then v else b i'

/-- Lookup in an index map, raising Julia's `KeyError` when absent (direct
`Dict` indexing `node_index[p]` / `vsrc_index[id]`). -/
def idxE (f : String → Option ℕ) (s : String) : Except JErr ℕ :=
  match f s with
  | some i => Except.ok i
  | none => Except.error (JErr.keyError s)

/-- `find_vsrc_between` (source lines 886-896): first voltage-defining
candidate whose output terminals match the unordered pair, with its
orientation sign. -/
def find_vsrc_between (cands : List ComponentPayload) (cp cn : String) :
    Except JErr (Option (String × ℚ)) :=
  match cands with
  | [] => Except.ok none
  | v :: rest => do
    let p ← dget v.connections "pos"
    let q ← dget v.connections "neg"
    if p = cp ∧ q = cn then pure (some (v.id, 1))
    else if p = cn ∧ q = cp then pure (some (v.id, -1))
    else find_vsrc_between rest cp cn

/-- `vsrc_stats_between` (source lines 898-911): number of candidates across
the unordered pair, and whether one of them is an independent DC source. -/
def vsrc_stats_between (cands : List ComponentPayload) (cp cn : String) :
    Except JErr (ℕ × Bool) :=
  match cands with
  | [] => Except.ok (0, false)
  | v :: rest => do
    let p ← dget v.connections "pos"
    let q ← dget v.connections "neg"
    let (cnt, hi) ← vsrc_stats_between rest cp cn
    if (p = cp ∧ q = cn) ∨ (p = cn ∧ q = cp) then
      pure (cnt + 1, hi || (v.type = "vsource_dc"))
    else
      pure (cnt, hi)

/-- The zero-volt sensing source synthesized for a CCVS/CCCS control pair. -/
def mkSense (pre : String) (c : ComponentPayload) (cp cn : String) :
    ComponentPayload :=
  ⟨pre ++ c.id, "vsource_dc", [("dc", 0)], [("pos", cp), ("neg", cn)]⟩

/-- Sensing-branch synthesis loop (source lines 913-929): a sensing source is
created for a controlled source exactly when its control pair has no
candidate at all, or has more than one candidate among which an
independent DC source occurs. -/
def senseList (pre : String) (cands lst : List ComponentPayload) :
    Except JErr (List ComponentPayload) :=
  match lst with
  | [] => Except.ok []
  | c :: rest => do
    let cp ← dget c.connections "ctrl_p"
    let cn ← dget c.connections "ctrl_n"
    let (cnt, hi) ← vsrc_stats_between cands cp cn
    let tail ← senseList pre cands rest
    if cnt = 0 ∨ (hi ∧ 1 < cnt) then
      pure (mkSense pre c cp cn :: tail)
    else
      pure tail

/-- Resistor conductance stamp (source lines 943-961). -/
def stampResistor (gnd : String) (nidx : String → Option ℕ) (A : QMat)
    (r : ComponentPayload) : Except JErr QMat := do
  let R ← dget r.parameters "value"
  let g := 1 / R
  let p ← dget r.connections "p"
  let q ← dget r.connections "n"
  let A ← if p ≠ gnd then do
      let ip ← idxE nidx p
      pure (addA A ip ip g)
    else pure A
  let A ← if q ≠ gnd then do
      let iq ← idxE nidx q
      pure (addA A iq iq g)
    else pure A
  if p ≠ gnd ∧ q ≠ gnd then do
    let ip ← idxE nidx p
    let iq ← idxE nidx q
    pure (addA (addA A ip iq (-g)) iq ip (-g))
  else pure A

/-- Independent current source stamp (source lines 966-976). -/
def stampIsource (gnd : String) (nidx : String → Option ℕ) (b : QVec)
    (s : ComponentPayload) : Except JErr QVec := do
  let Ival ← dget s.parameters "dc"
  let p ← dget s.connections "pos"
  let q ← dget s.connections "neg"
  let b ← if p ≠ gnd then do
      let ip ← idxE nidx p
      pure (addB b ip (-Ival))
    else pure b
  if q ≠ gnd then do
    let iq ← idxE nidx q
    pure (addB b iq Ival)
  else pure b

/-- The guarded pair of stamps a voltage-defining branch contributes for one
output terminal: the KCL entry `A[i, c] += w` and the constraint-row entry
`A[r, i] += w`, skipped entirely for the ground net. -/
def stampKclPair (gnd : String) (nidx : String → Option ℕ) (s : String)
    (c r : ℕ) (w : ℚ) (A : QMat) : Except JErr QMat :=
  if s ≠ gnd then do
    let i ← idxE nidx s
    pure (addA (addA A i c w) r i w)
  else pure A

/-- A single guarded constraint-row stamp `A[r, i] += w`, skipped for the
ground net. -/
def stampRowSingle (gnd : String) (nidx : String → Option ℕ) (s : String)
    (r : ℕ) (w : ℚ) (A : QMat) : Except JErr QMat :=
  if s ≠ gnd then do
    let i ← idxE nidx s
    pure (addA A r i w)
  else pure A

/-- Stamp of the `k`-th voltage-defining branch (source lines 981-1019):
KCL column and constraint row, then the `vsource_dc` / `vcvs` / `ccvs`
specific constraint content. -/
def stampVsrcRow (gnd : String) (nidx vidx : String → Option ℕ)
    (cands : List ComponentPayload) (n k : ℕ) (v : ComponentPayload)
    (Ab : QMat × QVec) : Except JErr (QMat × QVec) := do
  let A := Ab.1
  let b := Ab.2
  let p ← dget v.connections "pos"
  let q ← dget v.connections "neg"
  let row := n + k
  let A ← stampKclPair gnd nidx p (n + k) row 1 A
  let A ← stampKclPair gnd nidx q (n + k) row (-1) A
  if v.type = "vsource_dc" then do
    let V ← dget v.parameters "dc"
    pure (A, setB b row V)
  else if v.type = "vcvs" then do
    let g ← dget v.parameters "gain"
    let cp ← dget v.connections "ctrl_p"
    let cn ← dget v.connections "ctrl_n"
    let A ← stampRowSingle gnd nidx cp row (-g) A
    let A ← stampRowSingle gnd nidx cn row g A
    pure (A, b)
  else if v.type = "ccvs" then do
    let r ← dget v.parameters "gain"
    let cp ← dget v.connections "ctrl_p"
    let cn ← dget v.connections "ctrl_n"
    let senseId := "_sense_ccvs_" ++ v.id
    let st ← vsrc_stats_between cands cp cn
    let fv ← find_vsrc_between cands cp cn
    match fv with
    | some (vid, sgn) =>
      if ¬ (st.2 ∧ 1 < st.1) then do
        let j ← idxE vidx vid
        pure (addA A row (n + j) (-(r * sgn)), b)
      else
        match vidx senseId with
        | some j => pure (addA A row (n + j) (-r), b)
        | none => pure (A, b)
    | none =>
      match vidx senseId with
      | some j => pure (addA A row (n + j) (-r), b)
      | none => pure (A, b)
  else
    pure (A, b)

/-- Fold of `stampVsrcRow` over the enumerated `vsrc_rows` (1-based `k`). -/
def stampVsrcRows (gnd : String) (nidx vidx : String → Option ℕ)
    (cands : List ComponentPayload) (n : ℕ) :
    ℕ → List ComponentPayload → QMat × QVec → Except JErr (QMat × QVec)
  | _, [], Ab => Except.ok Ab
  | k, v :: vs, Ab => do
    let Ab ← stampVsrcRow gnd nidx vidx cands n k v Ab
    stampVsrcRows gnd nidx vidx cands n (k + 1) vs Ab

/-- CCCS output-KCL stamp proportional to the reference-current unknown
(source lines 1021-1046). -/
def stampCccs (gnd : String) (nidx vidx : String → Option ℕ)
    (cands : List ComponentPayload) (n : ℕ) (A : QMat)
    (f : ComponentPayload) : Except JErr QMat := do
  let g ← dget f.parameters "gain"
  let pos ← dget f.connections "pos"
  let neg ← dget f.connections "neg"
  let cp ← dget f.connections "ctrl_p"
  let cn ← dget f.connections "ctrl_n"
  let senseId := "_sense_cccs_" ++ f.id
  let st ← vsrc_stats_between cands cp cn
  let fv ← find_vsrc_between cands cp cn
  let stampAt : ℕ → ℚ → Except JErr QMat := fun j coef => do
    let A ← if pos ≠ gnd then do
        let ip ← idxE nidx pos
        pure (addA A ip (n + j) coef)
      else pure A
    if neg ≠ gnd then do
      let iq ← idxE nidx neg
      pure (addA A iq (n + j) (-coef))
    else pure A
  match fv with
  | some (vid, sgn) =>
    if ¬ (st.2 ∧ 1 < st.1) then do
      let j ← idxE vidx vid
      stampAt j (g * sgn)
    else
      match vidx senseId with
      | some j => stampAt j g
      | none => pure A
  | none =>
    match vidx senseId with
    | some j => stampAt j g
    | none => pure A

/-- VCCS transconductance stamp (source lines 1053-1078). -/
def stampVccs (gnd : String) (nidx : String → Option ℕ) (A : QMat)
    (gcs : ComponentPayload) : Except JErr QMat := do
  let g ← dget gcs.parameters "gain"
  let pos ← dget gcs.connections "pos"
  let neg ← dget gcs.connections "neg"
  let cp ← dget gcs.connections "ctrl_p"
  let cn ← dget gcs.connections "ctrl_n"
  let A ← if pos ≠ gnd then do
      let ip ← idxE nidx pos
      let A ← if cp ≠ gnd then do
          let icp ← idxE nidx cp
          pure (addA A ip icp g)
        else pure A
      if cn ≠ gnd then do
        let icn ← idxE nidx cn
        pure (addA A ip icn (-g))
      else pure A
    else pure A
  if neg ≠ gnd then do
    let ineg ← idxE nidx neg
    let A ← if cp ≠ gnd then do
        let icp ← idxE nidx cp
        pure (addA A ineg icp (-g))
      else pure A
    if cn ≠ gnd then do
      let icn ← idxE nidx cn
      pure (addA A ineg icn g)
    else pure A
  else pure A

/-- Canonical unordered node-pair key of a voltage-defining branch
(`p < q ? (p, q) : (q, p)` in the source). -/
def pairKey (p q : String) : String × String :=
  if strLt p q then (p, q) else (q, p)

/-- The canonical unordered node-pair key of a voltage-defining branch, read
from its output connections. -/
def branchKey (v : ComponentPayload) : Except JErr (String × String) := do
  let p ← dget v.connections "pos"
  let q ← dget v.connections "neg"
  pure (pairKey p q)

/-- Duplicate-branch marking (source lines 1082-1098): grouping the branch
rows by unordered node pair and perturbing all but the first of each group
is equivalent to flagging every branch whose pair already occurred
earlier in the enumeration. -/
def markDups (seen : List (String × String)) :
    List ComponentPayload → Except JErr (List Bool)
  | [] => Except.ok []
  | v :: rest => do
    let key ← branchKey v
    let fl := key ∈ seen
    let tail ← markDups (if fl then seen else seen ++ [key]) rest
    pure (fl :: tail)

/-- Apply the `+1e-12` diagonal perturbation to every flagged constraint row
(source lines 1091-1098), `k` enumerating the branch rows 1-based. -/
def applyReg (n : ℕ) : ℕ → List Bool → QMat → QMat
  | _, [], A => A
  | k, fl :: fls, A =>
    applyReg n (k + 1) fls (if fl then addA A (n + k) (n + k) eps12 else A)

/-- Julia `Set` construction (`Set{String}` of net names): duplicate-free
list in first-insertion order. -/
def dedupStrs (l : List String) : List String := l.foldl insertSet []

/-- Assembled MNA system together with the classified component lists the
result extractor reuses. -/
structure MNASystem where
  gnd : String
  nodes : List String
  vrows : List ComponentPayload
  cands : List ComponentPayload
  resistors : List ComponentPayload
  isources : List ComponentPayload
  cccs : List ComponentPayload
  A : QMat
  b : QVec

/-- MNA assembly, `solve_by_node_voltage` steps 1-3 plus the duplicate-branch
regularization (source lines 845-1098). -/
def assembleMNA (payload : SimulationPayload) : Except JErr MNASystem := do
  let gnd ← identify_ground payload
  let nodes :=
    sortStrs (dedupStrs ((payload.nets.map NetPayload.name).filter (· ≠ gnd)))
  let n := nodes.length
  let nidx := idx1 nodes
  let resistors := payload.components.filter (fun c => c.type = "resistor")
  let vs_ind := payload.components.filter (fun c => c.type = "vsource_dc")
  let vccs_list := payload.components.filter (fun c => c.type = "vccs")
  let vcvs_list := payload.components.filter (fun c => c.type = "vcvs")
  let ccvs_list := payload.components.filter (fun c => c.type = "ccvs")
  let cccs_list := payload.components.filter (fun c => c.type = "cccs")
  let isources := payload.components.filter (fun c => c.type = "isource_dc")
  let cands := vs_ind ++ vcvs_list ++ ccvs_list
  let sense_ccvs ← senseList "_sense_ccvs_" cands ccvs_list
  let sense_cccs ← senseList "_sense_cccs_" cands cccs_list
  let vrows := vs_ind ++ vcvs_list ++ ccvs_list ++ sense_ccvs ++ sense_cccs
  let vidx := idx1 (vrows.map ComponentPayload.id)
  let A0 : QMat := fun _ _ => 0
  let b0 : QVec := fun _ => 0
  let A ← resistors.foldlM (stampResistor gnd nidx) A0
  let b ← isources.foldlM (stampIsource gnd nidx) b0
  let Ab ← stampVsrcRows gnd nidx vidx cands n 1 vrows (A, b)
  let A ← cccs_list.foldlM (stampCccs gnd nidx vidx cands n) Ab.1
  let A ← vccs_list.foldlM (stampVccs gnd nidx) A
  let flags ← markDups [] vrows
  let A := applyReg n 1 flags A
  pure ⟨gnd, nodes, vrows, cands, resistors, isources, cccs_list, A, Ab.2⟩

/-- First retry matrix, node-block half: `A[i,i] += 1e-12 for i in 1:n`
(source lines 1109-1111). -/
def ridgeNodeBlock (n : ℕ) (A : QMat) : QMat :=
  fun i j => if i = j ∧ 1 ≤ i ∧ i ≤ n then A i j + eps12 else A i j

/-- First retry matrix, branch-block half: `A[n+j, n+j] += 1e-12 for j in
1:m` (source lines 1112-1114). -/
def ridgeBranchBlock (n m : ℕ) (A : QMat) : QMat :=
  fun i j => if i = j ∧ n + 1 ≤ i ∧ i ≤ n + m then A i j + eps12 else A i j

/-- The uniformly ridged matrix used by the solver's single retry. -/
def ridged (n m : ℕ) (A : QMat) : QMat :=
  ridgeBranchBlock n m (ridgeNodeBlock n A)

/-- Staged linear solve (source lines 1102-1129): direct `A \ b`; on the
singular-matrix condition one retry with the ridged matrix; if that is
singular too, the pseudo-inverse least-squares answer `pinv(A) * b`
(applied to the ridged matrix, which the source mutated in place). Any
non-singular backend exception is rethrown. `bs` models `\` and `pv`
models `x := pinv(A) * b`. -/
def stagedSolve (bs : QMat → QVec → Except SolveErr QVec)
    (pv : QMat → QVec → QVec) (n m : ℕ) (A : QMat) (b : QVec) :
    Except SolveErr QVec :=
  match bs A b with
  | Except.ok x => Except.ok x
  | Except.error SolveErr.singular =>
    match bs (ridged n m A) b with
    | Except.ok x => Except.ok x
    | Except.error SolveErr.singular => Except.ok (pv (ridged n m A) b)
    | Except.error (SolveErr.other msg) => Except.error (SolveErr.other msg)
  | Except.error (SolveErr.other msg) => Except.error (SolveErr.other msg)

/-- Rethrown solver exceptions surface as plain (non-`ValidationError`)
errors of the request. -/
def liftSolve (e : Except SolveErr QVec) : Except JErr QVec :=
  match e with
  | Except.ok x => Except.ok x
  | Except.error SolveErr.singular => Except.error (JErr.other "SingularException")
  | Except.error (SolveErr.other msg) => Except.error (JErr.other msg)

/-- Node-voltage map (source lines 1132-1139): ground at `0.0` under the
literal alias `"gnd"` and, when different, its declared name; then each
non-ground node's solved voltage. -/
def extractNodeVoltages (gnd : String) (nodes : List String) (x : QVec) :
    List (String × ℚ) :=
  ([("gnd", (0 : ℚ))] ++ (if gnd ≠ "gnd" then [(gnd, (0 : ℚ))] else []))
    ++ nodes.enum.map (fun p => (p.2, x (p.1 + 1)))

/-- Resistor branch currents `(V_p - V_n) / R` (source lines 1143-1148). -/
def extractResistorCurrents (nv : List (String × ℚ)) :
    List ComponentPayload → Except JErr (List (String × ℚ))
  | [] => Except.ok []
  | r :: rest => do
    let R ← dget r.parameters "value"
    let p ← dget r.connections "p"
    let q ← dget r.connections "n"
    let tail ← extractResistorCurrents nv rest
    pure ((r.id, (getD nv p 0 - getD nv q 0) / R) :: tail)

/-- Branch currents of the voltage-defining rows (source lines 1150-1156):
every `vsource_dc` / `vcvs` / `ccvs` row that is not a synthesized sensing
branch reports its own solved unknown `x[n+k]`. -/
def extractVsrcCurrents (n : ℕ) (x : QVec) :
    ℕ → List ComponentPayload → List (String × ℚ)
  | _, [] => []
  | k, v :: vs =>
    (if (v.type = "vsource_dc" ∨ v.type = "vcvs" ∨ v.type = "ccvs")
        ∧ ¬ v.id.startsWith "_sense_ccvs_" ∧ ¬ v.id.startsWith "_sense_cccs_"
     then [(v.id, x (n + k))] else [])
      ++ extractVsrcCurrents n x (k + 1) vs

/-- CCCS branch currents (source lines 1157-1170): `gain × (±1) ×` the
solved current of the reference branch found between the control nets, or
of the synthesized sensing branch. -/
def extractCccsCurrents (cands : List ComponentPayload)
    (vidx : String → Option ℕ) (n : ℕ) (x : QVec) :
    List ComponentPayload → Except JErr (List (String × ℚ))
  | [] => Except.ok []
  | f :: rest => do
    let cp ← dget f.connections "ctrl_p"
    let cn ← dget f.connections "ctrl_n"
    let senseId := "_sense_cccs_" ++ f.id
    let fv ← find_vsrc_between cands cp cn
    let tail ← extractCccsCurrents cands vidx n x rest
    match fv with
    | some (vid, sgn) => do
      let j ← idxE vidx vid
      let g ← dget f.parameters "gain"
      pure ((f.id, g * sgn * x (n + j)) :: tail)
    | none =>
      match vidx senseId with
      | some j => do
        let g ← dget f.parameters "gain"
        pure ((f.id, g * x (n + j)) :: tail)
      | none => pure tail

/-- Independent current-source branch currents: their fixed `dc` value
(source lines 1172-1174). -/
def extractIsourceCurrents :
    List ComponentPayload → Except JErr (List (String × ℚ))
  | [] => Except.ok []
  | s :: rest => do
    let v ← dget s.parameters "dc"
    let tail ← extractIsourceCurrents rest
    pure ((s.id, v) :: tail)

/-- The two result maps of a DC solve. -/
structure SolveResult where
  node_voltages : List (String × ℚ)
  branch_currents : List (String × ℚ)
deriving DecidableEq, Repr

/-- `solve_by_node_voltage` (source lines 840-1205): eligibility gate, MNA
assembly, staged linear solve, result extraction. The two teaching-mode
keys of the returned dictionary are not modelled; the claims concern only
`node_voltages` and `branch_currents`, which teaching mode does not
affect. -/
def solve_by_node_voltage (bs : QMat → QVec → Except SolveErr QVec)
    (pv : QMat → QVec → QVec) (payload : SimulationPayload) :
    Except JErr SolveResult :=
  if ¬ is_resistive_circuit payload then
    Except.error (JErr.validation "节点电压法仅适用于纯电阻电路" [])
  else do
  let sys ← assembleMNA payload
  let n := sys.nodes.length
  let m := sys.vrows.length
  let x ← liftSolve (stagedSolve bs pv n m sys.A sys.b)
  let nv := extractNodeVoltages sys.gnd sys.nodes x
  let rc ← extractResistorCurrents nv sys.resistors
  let vc := extractVsrcCurrents n x 1 sys.vrows
  let cc ← extractCccsCurrents sys.cands
    (idx1 (sys.vrows.map ComponentPayload.id)) n x sys.cccs
  let ic ← extractIsourceCurrents sys.isources
  pure ⟨nv, rc ++ vc ++ cc ++ ic⟩

/-- Result of the Thévenin analyzer. -/
structure TheveninResult where
  vth : ℚ
  rth : ℚ
  positive : String
  negative : String
deriving DecidableEq, Repr

/-- The extra near-short resistor the Thévenin analyzer inserts across the
port (source lines 1238-1245). -/
def theveninShort (port_pos port_neg : String) : ComponentPayload :=
  ⟨"_thevenin_short", "resistor", [("value", shortRes)],
    [("p", port_pos), ("n", port_neg)]⟩

/-- `compute_thevenin_equivalent` (source lines 1218-1273): open-circuit
solve for `Vth`, re-solve with the near-short for `Isc`, and
`Rth = |Vth / Isc|` with the `1e12` open-port sentinel. -/
def compute_thevenin_equivalent (bs : QMat → QVec → Except SolveErr QVec)
    (pv : QMat → QVec → QVec) (payload : SimulationPayload)
    (port_pos port_neg : String) : Except JErr TheveninResult :=
  if ¬ is_resistive_circuit payload then
    Except.error (JErr.validation "戴维南等效仅适用于纯电阻电路" [])
  else do
  let result ← solve_by_node_voltage bs pv payload
  let vth := getD result.node_voltages port_pos 0
    - getD result.node_voltages port_neg 0
  let modified : SimulationPayload :=
    ⟨payload.components ++ [theveninShort port_pos port_neg], payload.nets,
      payload.sim, some "node_voltage", none, none⟩
  let short_result ← solve_by_node_voltage bs pv modified
  let isc := getD short_result.branch_currents "_thevenin_short" 0
  let rth := if eps12 < |isc| then |vth / isc| else bigRes
  pure ⟨vth, rth, port_pos, port_neg⟩

/-- Terminal-to-net lookup by scanning net memberships, as the branch/mesh
methods do (their nested `for net / for (comp_id, handle)` loops with
overwriting assignment; the last matching net wins, `""` if none). -/
def findTermNet (nets : List NetPayload) (cid h : String) : String :=
  nets.foldl
    (fun acc net =>
      net.nodes.foldl
        (fun a pr => if pr.1 = cid ∧ pr.2 = h then net.name else a) acc) ""

/-- One branch's contribution to the branch/mesh methods' recomputed current
map: a resistor from node voltages, `0.0` for an independent voltage
source, the fixed value for a current source. -/
def branchEntry (nets : List NetPayload) (nv : List (String × ℚ))
    (br : ComponentPayload) : Except JErr (List (String × ℚ)) :=
  if br.type = "resistor" then do
    let node_p := findTermNet nets br.id "p"
    let node_n := findTermNet nets br.id "n"
    let R ← dget br.parameters "value"
    pure [(br.id, (getD nv node_p 0 - getD nv node_n 0) / R)]
  else if br.type = "vsource_dc" then
    pure [(br.id, (0 : ℚ))]
  else if br.type = "isource_dc" then do
    let v ← dget br.parameters "dc"
    pure [(br.id, v)]
  else pure []

/-- Branch-current recomputation shared by `solve_by_branch_current` (source
lines 1471-1528, a loop the source runs twice with identical effect) and
`solve_by_mesh_current` (source lines 1651-1678). -/
def branchCurrentsFromNodes (nets : List NetPayload) (nv : List (String × ℚ)) :
    List ComponentPayload → Except JErr (List (String × ℚ))
  | [] => Except.ok []
  | br :: rest => do
    let entry ← branchEntry nets nv br
    let tail ← branchCurrentsFromNodes nets nv rest
    pure (entry ++ tail)

/-- `solve_by_branch_current` (source lines 1282-1553): delegates the actual
solve to `solve_by_node_voltage` and recomputes branch currents from the
node voltages. The KCL coefficient matrix the source builds on lines
1330-1445 is written to local arrays that are never solved nor read when
producing the returned maps, and is therefore not modelled; teaching-mode
step text is likewise omitted. -/
def solve_by_branch_current (bs : QMat → QVec → Except SolveErr QVec)
    (pv : QMat → QVec → QVec) (payload : SimulationPayload) :
    Except JErr SolveResult :=
  if ¬ is_resistive_circuit payload then
    Except.error (JErr.validation "支路电流法仅适用于纯电阻电路" [])
  else do
  let resistors := payload.components.filter (fun c => c.type = "resistor")
  let voltage_sources :=
    payload.components.filter (fun c => c.type = "vsource_dc")
  let current_sources :=
    payload.components.filter (fun c => c.type = "isource_dc")
  let branches := resistors ++ voltage_sources ++ current_sources
  let node_result ← solve_by_node_voltage bs pv payload
  let nv := node_result.node_voltages
  let bc ← branchCurrentsFromNodes payload.nets nv branches
  pure ⟨nv, bc⟩

/-- `solve_by_mesh_current` (source lines 1570-1702): identical delegation to
`solve_by_node_voltage` with the same branch-current recomputation (the
mesh enumeration exists only as teaching-mode text). -/
def solve_by_mesh_current (bs : QMat → QVec → Except SolveErr QVec)
    (pv : QMat → QVec → QVec) (payload : SimulationPayload) :
    Except JErr SolveResult :=
  if ¬ is_resistive_circuit payload then
    Except.error (JErr.validation "网孔电流法仅适用于纯电阻电路" [])
  else do
  let resistors := payload.components.filter (fun c => c.type = "resistor")
  let voltage_sources :=
    payload.components.filter (fun c => c.type = "vsource_dc")
  let current_sources :=
    payload.components.filter (fun c => c.type = "isource_dc")
  let branches := resistors ++ voltage_sources ++ current_sources
  let node_result ← solve_by_node_voltage bs pv payload
  let nv := node_result.node_voltages
  let bc ← branchCurrentsFromNodes payload.nets nv branches
  pure ⟨nv, bc⟩

/-! ## Concrete instances used to exercise the embedding -/

/-- Payload with a net literally named `"gnd"` and two ground components
whose declarations disagree (nets `"a"` and `"b"`). -/
def pGndDeclared : SimulationPayload :=
  ⟨[⟨"G1", "ground", [], [("gnd", "a")]⟩,
    ⟨"G2", "ground", [], [("gnd", "b")]⟩],
   [⟨"gnd", [("G1", "gnd"), ("G2", "gnd")]⟩, ⟨"a", []⟩, ⟨"b", []⟩],
   ⟨1, 2⟩, none, none, none⟩

/-- Payload with no net named `"gnd"` and a single ground component. -/
def pOneGround : SimulationPayload :=
  ⟨[⟨"G1", "ground", [], [("gnd", "n0")]⟩],
   [⟨"n0", [("G1", "gnd")]⟩, ⟨"x", []⟩],
   ⟨1, 2⟩, none, none, none⟩

/-- A backend stand-in that always returns the zero vector. -/
def bsZero : QMat → QVec → Except SolveErr QVec :=
  fun _ _ => Except.ok (fun _ => 0)

/-- A pseudo-inverse stand-in returning the zero vector. -/
def pvZero : QMat → QVec → QVec := fun _ _ => fun _ => 0

/-- An eligible payload whose resistor is missing its required `value`
parameter. -/
def pMissingValue : SimulationPayload :=
  ⟨[⟨"R1", "resistor", [], [("p", "a"), ("n", "gnd")]⟩],
   [⟨"gnd", [("R1", "n")]⟩, ⟨"a", [("R1", "p")]⟩],
   ⟨1, 2⟩, none, none, none⟩

/-- The spec §8 voltage-divider circuit: 9 V source, 3 kΩ to `n1`, 6 kΩ to
ground. -/
def pDivider : SimulationPayload :=
  ⟨[⟨"G", "ground", [], [("gnd", "gnd")]⟩,
    ⟨"V1", "vsource_dc", [("dc", 9)], [("pos", "vin"), ("neg", "gnd")]⟩,
    ⟨"R1", "resistor", [("value", 3000)], [("p", "vin"), ("n", "n1")]⟩,
    ⟨"R2", "resistor", [("value", 6000)], [("p", "n1"), ("n", "gnd")]⟩],
   [⟨"gnd", [("G", "gnd"), ("V1", "neg"), ("R2", "n")]⟩,
    ⟨"vin", [("V1", "pos"), ("R1", "p")]⟩,
    ⟨"n1", [("R1", "n"), ("R2", "p")]⟩],
   ⟨1, 2⟩, none, none, none⟩

/-- Exact-solution oracle for `pDivider`: `V(n1) = 6`, `V(vin) = 9`,
source current `-3/1000` (this is the unique solution of its MNA system,
and it pins the `x` vector both Thévenin solves receive). -/
def bsDiv : QMat → QVec → Except SolveErr QVec :=
  fun _ _ => Except.ok
    (fun i => if i = 1 then 6 else if i = 2 then 9
      else if i = 3 then -(3 / 1000) else 0)

/-- Two parallel VCVS branches between nets `x`/`y` and a CCCS controlled by
that same pair: more than one candidate, none of them independent. -/
def vcvsX1 : ComponentPayload :=
  ⟨"E1", "vcvs", [("gain", 2)],
    [("pos", "x"), ("neg", "y"), ("ctrl_p", "u"), ("ctrl_n", "v")]⟩

/-- Second parallel VCVS across the same pair as `vcvsX1`. -/
def vcvsX2 : ComponentPayload :=
  ⟨"E2", "vcvs", [("gain", 3)],
    [("pos", "x"), ("neg", "y"), ("ctrl_p", "u"), ("ctrl_n", "v")]⟩

/-- A CCCS whose control pair `x`/`y` is spanned by the two parallel VCVS. -/
def cccsF1 : ComponentPayload :=
  ⟨"F1", "cccs", [("gain", 5)],
    [("pos", "u"), ("neg", "v"), ("ctrl_p", "x"), ("ctrl_n", "y")]⟩

/-- A voltage source whose output terminals sit reversed across `x`/`y`. -/
def vsrcRev : ComponentPayload :=
  ⟨"E9", "vsource_dc", [("dc", 7)], [("pos", "y"), ("neg", "x")]⟩

/-- Branch-current map of a solve result, `none` on error. -/
def bcOf (e : Except JErr SolveResult) (id : String) : Option ℚ :=
  match e with
  | Except.ok r => r.branch_currents.lookup id
  | Except.error _ => none

/-- Row `i` of `A · x` over the active `nm × nm` block. -/
def rowDot (A : QMat) (x : QVec) (nm i : ℕ) : ℚ :=
  ((List.range nm).map (fun j => A i (j + 1) * x (j + 1))).sum

/-- Whether `x` satisfies the assembled system `A x = b` on every active
row. -/
def solvesSystem (sys : MNASystem) (x : QVec) : Bool :=
  (List.range (sys.nodes.length + sys.vrows.length)).all
    (fun i => rowDot sys.A x (sys.nodes.length + sys.vrows.length) (i + 1)
      == sys.b (i + 1))

/-- A circuit with a CCVS: 5 V source and 10 Ω at net `a`, a CCVS of gain 2
controlled by the source branch driving net `b` into 4 Ω. -/
def pC4 : SimulationPayload :=
  ⟨[⟨"G", "ground", [], [("gnd", "gnd")]⟩,
    ⟨"V1", "vsource_dc", [("dc", 5)], [("pos", "a"), ("neg", "gnd")]⟩,
    ⟨"R1", "resistor", [("value", 10)], [("p", "a"), ("n", "gnd")]⟩,
    ⟨"H1", "ccvs", [("gain", 2)],
      [("pos", "b"), ("neg", "gnd"), ("ctrl_p", "a"), ("ctrl_n", "gnd")]⟩,
    ⟨"R2", "resistor", [("value", 4)], [("p", "b"), ("n", "gnd")]⟩],
   [⟨"gnd", [("G", "gnd"), ("V1", "neg"), ("R1", "n"), ("H1", "neg"),
      ("R2", "n")]⟩,
    ⟨"a", [("V1", "pos"), ("R1", "p"), ("H1", "ctrl_p")]⟩,
    ⟨"b", [("H1", "pos"), ("R2", "p")]⟩],
   ⟨1, 2⟩, none, none, none⟩

/-- The exact solution of `pC4`'s MNA system: `V(a) = 5`, `V(b) = -1`,
`I(V1) = -1/2`, `I(H1) = 1/4`. -/
def xC4 : QVec :=
  fun i => if i = 1 then 5 else if i = 2 then -1
    else if i = 3 then -(1 / 2) else if i = 4 then 1 / 4 else 0

/-- Exact-solution oracle for `pC4`. -/
def bsC4 : QMat → QVec → Except SolveErr QVec :=
  fun _ _ => Except.ok xC4

/-- The identity-like test vector used by extraction witnesses. -/
def xIdx : QVec := fun i => (i : ℚ)

/-- A branch-index map sending `"E9"` to 1, used by extraction witnesses. -/
def vidxW : String → Option ℕ := fun s => if s = "E9" then some 1 else none

/-! ## Helper lemmas -/

theorem addA_apply (A : QMat) (i j : ℕ) (v : ℚ) (i' j' : ℕ) :
    addA A i j v i' j' = A i' j' + (if i' = i ∧ j' = j then v else 0) := by
  unfold addA
  split_ifs with h
  · rw [h.1, h.2]
  · ring

theorem ridged_diag (n m : ℕ) (A : QMat) (i : ℕ) (h1 : 1 ≤ i)
    (h2 : i ≤ n + m) : ridged n m A i i = A i i + eps12 := by
  unfold ridged ridgeBranchBlock ridgeNodeBlock
  split_ifs with ha hb hc <;> first | rfl | omega

theorem ridged_off_diag (n m : ℕ) (A : QMat) (i j : ℕ) (h : i ≠ j) :
    ridged n m A i j = A i j := by
  have h1 : ¬ (i = j ∧ n + 1 ≤ i ∧ i ≤ n + m) := fun hc => h hc.1
  have h2 : ¬ (i = j ∧ 1 ≤ i ∧ i ≤ n) := fun hc => h hc.1
  unfold ridged ridgeBranchBlock ridgeNodeBlock
  rw [if_neg h1, if_neg h2]

/-! ## Claim C1: staged linear-solver fallback -/

/-- Claim C1: the linear solver first attempts the direct solve; on the
singular-matrix condition it retries exactly once after `+1e-12` has been
added to every diagonal entry of the node block and of the branch-current
block (and to no other entry); if the retry is singular too, it falls back
to the pseudo-inverse least-squares answer; under the singular-only
failure model of the backend the staged chain never raises, so a
structurally singular system still yields an answer. -/
theorem staged_solver_fallback (bs : QMat → QVec → Except SolveErr QVec)
    (pv : QMat → QVec → QVec) (n m : ℕ) (A : QMat) (b : QVec)
    (hbs : ∀ M v, bs M v = Except.error SolveErr.singular ∨
      ∃ x, bs M v = Except.ok x) :
    (∃ x, stagedSolve bs pv n m A b = Except.ok x) ∧
    (∀ x, bs A b = Except.ok x →
      stagedSolve bs pv n m A b = Except.ok x) ∧
    (bs A b = Except.error SolveErr.singular →
      (∀ i, 1 ≤ i → i ≤ n + m → ridged n m A i i = A i i + eps12) ∧
      (∀ i j, i ≠ j → ridged n m A i j = A i j) ∧
      (∀ y, bs (ridged n m A) b = Except.ok y →
        stagedSolve bs pv n m A b = Except.ok y) ∧
      (bs (ridged n m A) b = Except.error SolveErr.singular →
        stagedSolve bs pv n m A b = Except.ok (pv (ridged n m A) b))) := by
  refine ⟨?_, ?_, ?_⟩
  · rcases hbs A b with h | ⟨x, h⟩
    · rcases hbs (ridged n m A) b with h2 | ⟨y, h2⟩
      · exact ⟨pv (ridged n m A) b, by unfold stagedSolve; rw [h, h2]⟩
      · exact ⟨y, by unfold stagedSolve; rw [h, h2]⟩
    · exact ⟨x, by unfold stagedSolve; rw [h]⟩
  · intro x h
    unfold stagedSolve
    rw [h]
  · intro h
    refine ⟨fun i h1 h2 => ridged_diag n m A i h1 h2,
      fun i j hij => ridged_off_diag n m A i j hij, ?_, ?_⟩
    · intro y h2
      unfold stagedSolve
      rw [h, h2]
    · intro h2
      unfold stagedSolve
      rw [h, h2]

/-- Witness for C1: with a backend that always reports the singular
condition, the staged chain still produces the least-squares answer. -/
theorem staged_solver_fallback_witness :
    stagedSolve (fun _ _ => Except.error SolveErr.singular)
      (fun _ _ => fun _ => (0 : ℚ)) 1 1 (fun _ _ => 0) (fun _ => 0)
      = Except.ok (fun _ => (0 : ℚ)) := by
  have h := staged_solver_fallback (fun _ _ => Except.error SolveErr.singular)
    (fun _ _ => fun _ => (0 : ℚ)) 1 1 (fun _ _ => 0) (fun _ => 0)
    (fun _ _ => Or.inl rfl)
  exact (h.2.2 rfl).2.2.2 rfl

/-! ## Claim C6: ground identification -/

/-- Counterexample to C6 as stated: two ground components are declared and
disagree on the net (`"a"` versus `"b"`), yet — because a net literally
named `"gnd"` exists — the identification succeeds with `"gnd"` instead of
failing with a `ValidationError`. -/
theorem ground_disagree_yet_ok :
    identify_ground pGndDeclared = Except.ok "gnd" ∧
    pGndDeclared.components.map
        (fun c => (c.type, c.connections.lookup "gnd"))
      = [("ground", some "a"), ("ground", some "b")] ∧
    ("a" : String) ≠ "b" := by
  refine ⟨by decide, by decide, by decide⟩

/-- Claim C6 (amended): the ground net is the net literally named `"gnd"`
when one exists — in that case disagreeing ground components are ignored;
otherwise it is the net the ground components connect to; with no
candidate at all the solve fails with `ValidationError`, and with several
distinct ground nets (and no net named `"gnd"`) it fails with the
multiple-grounds `ValidationError`. -/
theorem identify_ground_spec (p : SimulationPayload) :
    (declaredGnd p = true → identify_ground p = Except.ok "gnd") ∧
    (declaredGnd p = false → groundNets p = [] →
      identify_ground p = Except.error (JErr.validation "缺少地线节点" [])) ∧
    (∀ g, declaredGnd p = false → groundNets p = [g] →
      identify_ground p = Except.ok g) ∧
    (declaredGnd p = false → 2 ≤ (groundNets p).length →
      identify_ground p = Except.error (JErr.validation
        "存在多个地线且连接到不同网络"
        [("ground_nets", String.intercalate "," (groundNets p))])) := by
  refine ⟨?_, ?_, ?_, ?_⟩
  · intro hd
    simp [identify_ground, hd]
  · intro hd hg
    simp [identify_ground, hd, hg]
  · intro g hd hg
    simp [identify_ground, hd, hg]
  · intro hd hlen
    rcases hg : groundNets p with - | ⟨g, gs⟩
    · rw [hg] at hlen
      simp at hlen
    · rw [hg] at hlen
      have h1 : 1 < (g :: gs).length := by
        simp only [List.length_cons] at hlen ⊢
        omega
      simp [identify_ground, hd, hg, h1]
      rintro rfl
      simp at h1

/-- Witness for C6 (amended): the `"gnd"`-net case and the
single-ground-component case, evaluated on concrete payloads. -/
theorem identify_ground_spec_witness :
    identify_ground pGndDeclared = Except.ok "gnd" ∧
    identify_ground pOneGround = Except.ok "n0" :=
  ⟨(identify_ground_spec pGndDeclared).1 (by decide),
   (identify_ground_spec pOneGround).2.2.1 "n0" (by decide) (by decide)⟩

/-! ## Claim C7: missing-parameter errors on the DC path -/

/-- Counterexample to C7 as stated: a resistor without `value` on the DC
node-voltage path fails with a bare `KeyError` that names only the
parameter key — not with a `ValidationError` carrying the component id —
because the DC path indexes the parameter dictionary directly instead of
going through `require_parameter`. -/
theorem missing_value_keyerror_cex :
    solve_by_node_voltage bsZero pvZero pMissingValue
      = Except.error (JErr.keyError "value") := by decide

/-- Claim C7 (amended): a missing required parameter produces the structured
`ValidationError` naming the component id and the parameter key only
through `require_parameter`, which the DC path does not call; the DC
path's direct dictionary access produces a `KeyError` that carries the
parameter key alone. -/
theorem missing_parameter_error_forms (c : ComponentPayload) (key : String)
    (h : c.parameters.lookup key = none) :
    require_parameter c key = Except.error (JErr.validation
      ("缺少元件参数 " ++ key) [("component", c.id), ("parameter", key)]) ∧
    dget c.parameters key = Except.error (JErr.keyError key) := by
  unfold require_parameter dget
  rw [h]
  exact ⟨rfl, rfl⟩

/-- Witness for C7 (amended), at the concrete parameterless resistor. -/
theorem missing_parameter_error_forms_witness :
    require_parameter ⟨"R1", "resistor", [], [("p", "a"), ("n", "gnd")]⟩
        "value"
      = Except.error (JErr.validation "缺少元件参数 value"
          [("component", "R1"), ("parameter", "value")]) ∧
    dget (⟨"R1", "resistor", [], [("p", "a"), ("n", "gnd")]⟩ :
        ComponentPayload).parameters "value"
      = Except.error (JErr.keyError "value") :=
  missing_parameter_error_forms ⟨"R1", "resistor", [], [("p", "a"), ("n", "gnd")]⟩
    "value" (by decide)

/-! ## Claim C9: determinism of the DC solve -/

/-- Claim C9: the DC node-voltage solve is a deterministic pure function of
the circuit description (components and nets) and the linear-algebra
backend: re-solving the identical input yields the identical result maps,
and none of the transport-level payload fields (`sim`, `method`,
`thevenin_port`, `teaching_mode`) influence the two result maps. -/
theorem solve_by_node_voltage_deterministic
    (bs : QMat → QVec → Except SolveErr QVec) (pv : QMat → QVec → QVec)
    (comps : List ComponentPayload) (nets : List NetPayload)
    (s1 s2 : SimulationSettings) (m1 m2 : Option String)
    (t1 t2 : Option (List (String × String))) (tm1 tm2 : Option Bool) :
    solve_by_node_voltage bs pv ⟨comps, nets, s1, m1, t1, tm1⟩
      = solve_by_node_voltage bs pv ⟨comps, nets, s1, m1, t1, tm1⟩ ∧
    solve_by_node_voltage bs pv ⟨comps, nets, s1, m1, t1, tm1⟩
      = solve_by_node_voltage bs pv ⟨comps, nets, s2, m2, t2, tm2⟩ :=
  ⟨rfl, rfl⟩

/-! ## Claim C5: Thévenin analysis -/

/-- Claim C5: Thévenin analysis solves the unmodified circuit for
`Vth = V(positive) − V(negative)`, re-solves the component set extended
with exactly one `1e-6 Ω` resistor directly across the port for the
short-circuit current `Isc` of that resistor, and reports
`Rth = |Vth / Isc|` when `|Isc| > 1e-12` and the sentinel `1e12 Ω`
otherwise — an open port yields the sentinel, not an error. -/
theorem thevenin_procedure (bs : QMat → QVec → Except SolveErr QVec)
    (pv : QMat → QVec → QVec) (p : SimulationPayload) (pos neg : String)
    (r1 r2 : SolveResult)
    (helig : is_resistive_circuit p = true)
    (h1 : solve_by_node_voltage bs pv p = Except.ok r1)
    (h2 : solve_by_node_voltage bs pv
      ⟨p.components ++ [theveninShort pos neg], p.nets, p.sim,
        some "node_voltage", none, none⟩ = Except.ok r2) :
    (theveninShort pos neg).type = "resistor" ∧
    (theveninShort pos neg).parameters = [("value", 1 / 1000000)] ∧
    (theveninShort pos neg).connections = [("p", pos), ("n", neg)] ∧
    compute_thevenin_equivalent bs pv p pos neg = Except.ok
      { vth := getD r1.node_voltages pos 0 - getD r1.node_voltages neg 0,
        rth :=
          if eps12 < |getD r2.branch_currents "_thevenin_short" 0| then
            |(getD r1.node_voltages pos 0 - getD r1.node_voltages neg 0)
              / getD r2.branch_currents "_thevenin_short" 0|
          else bigRes,
        positive := pos, negative := neg } := by
  refine ⟨rfl, rfl, rfl, ?_⟩
  unfold compute_thevenin_equivalent
  rw [helig, if_neg (by simp)]
  simp only [h1, ok_bind, h2]
  rfl

/-- Witness for C5: the Thévenin procedure on the voltage divider. -/
theorem thevenin_procedure_witness :
    compute_thevenin_equivalent bsDiv pvZero pDivider "n1" "gnd"
      = Except.ok ⟨6, 1 / 1000000, "n1", "gnd"⟩ := by
  have h := thevenin_procedure bsDiv pvZero pDivider "n1" "gnd"
    ⟨[("gnd", 0), ("n1", 6), ("vin", 9)],
     [("R1", 1 / 1000), ("R2", 1 / 1000), ("V1", -(3 / 1000))]⟩
    ⟨[("gnd", 0), ("n1", 6), ("vin", 9)],
     [("R1", 1 / 1000), ("R2", 1 / 1000), ("_thevenin_short", 6000000),
      ("V1", -(3 / 1000))]⟩
    (by decide) (by with_unfolding_all rfl) (by with_unfolding_all rfl)
  rw [h.2.2.2]
  with_unfolding_all rfl

/-! ## Claim C10: the branch-current and mesh-current methods delegate -/

theorem pure_ok {ε α : Type} (a : α) : (pure a : Except ε α) = Except.ok a :=
  rfl

theorem branchEntry_keys (nets : List NetPayload) (nv : List (String × ℚ))
    (br : ComponentPayload) (e : List (String × ℚ))
    (h : branchEntry nets nv br = Except.ok e) :
    ∀ kv ∈ e, kv.1 = br.id := by
  unfold branchEntry at h
  split_ifs at h with h1 h2 h3
  · cases hR : dget br.parameters "value" with
    | error err => rw [hR] at h; simp at h
    | ok R =>
      rw [hR] at h
      simp only [ok_bind, pure_ok, Except.ok.injEq] at h
      subst h
      intro kv hkv
      simp only [List.mem_singleton] at hkv
      rw [hkv]
  · simp only [pure_ok, Except.ok.injEq] at h
    subst h
    intro kv hkv
    simp only [List.mem_singleton] at hkv
    rw [hkv]
  · cases hV : dget br.parameters "dc" with
    | error err => rw [hV] at h; simp at h
    | ok v =>
      rw [hV] at h
      simp only [ok_bind, pure_ok, Except.ok.injEq] at h
      subst h
      intro kv hkv
      simp only [List.mem_singleton] at hkv
      rw [hkv]
  · simp only [pure_ok, Except.ok.injEq] at h
    subst h
    intro kv hkv
    simp at hkv

theorem lookup_skip {β : Type} (k : String) (e t : List (String × β))
    (h : ∀ kv ∈ e, kv.1 ≠ k) : (e ++ t).lookup k = t.lookup k := by
  induction e with
  | nil => rfl
  | cons kv rest ih =>
    obtain ⟨k1, v1⟩ := kv
    have hk : (k == k1) = false := by
      rw [beq_eq_false_iff_ne]
      intro he
      exact h (k1, v1) (by simp) (by rw [he])
    simp only [List.cons_append, List.lookup, hk]
    exact ih fun kv hkv => h kv (by simp [hkv])

theorem id_inj_of_nodup (l : List ComponentPayload)
    (h : (l.map ComponentPayload.id).Nodup) :
    ∀ a ∈ l, ∀ b ∈ l, a.id = b.id → a = b := by
  induction l with
  | nil => simp
  | cons x xs ih =>
    simp only [List.map_cons, List.nodup_cons] at h
    intro a ha b hb he
    rcases List.mem_cons.mp ha with rfl | ha2 <;>
      rcases List.mem_cons.mp hb with rfl | hb2
    · rfl
    · exact absurd (he ▸ List.mem_map_of_mem ComponentPayload.id hb2) h.1
    · exact absurd (he ▸ List.mem_map_of_mem ComponentPayload.id ha2)
        (by rw [he] at *; exact h.1)
    · exact ih h.2 a ha2 b hb2 he

theorem bcfn_vsource_lookup (nets : List NetPayload) (nv : List (String × ℚ)) :
    ∀ (branches : List ComponentPayload) (bc : List (String × ℚ)),
      branchCurrentsFromNodes nets nv branches = Except.ok bc →
      ∀ c : ComponentPayload, c.type = "vsource_dc" → c ∈ branches →
        (∀ br ∈ branches, br.id = c.id → br.type = "vsource_dc") →
        bc.lookup c.id = some 0 := by
  intro branches
  induction branches with
  | nil =>
    intro bc h c ht hc
    simp at hc
  | cons br rest ih =>
    intro bc h c ht hc huniq
    simp only [branchCurrentsFromNodes] at h
    cases hE : branchEntry nets nv br with
    | error err => rw [hE] at h; simp at h
    | ok entry =>
      rw [hE] at h
      simp only [ok_bind] at h
      cases hT : branchCurrentsFromNodes nets nv rest with
      | error err => rw [hT] at h; simp at h
      | ok tail =>
        rw [hT] at h
        simp only [ok_bind, pure_ok, Except.ok.injEq] at h
        subst h
        by_cases hid : br.id = c.id
        · have hty : br.type = "vsource_dc" := huniq br (by simp) hid
          have hE2 : branchEntry nets nv br = Except.ok [(br.id, (0 : ℚ))] := by
            simp [branchEntry, hty, pure_ok]
          have hent : entry = [(br.id, (0 : ℚ))] := by
            have := hE.symm.trans hE2
            simpa using this
          subst hent
          simp [List.lookup, hid]
        · have hc2 : c ∈ rest := by
            rcases List.mem_cons.mp hc with rfl | hc2
            · exact absurd rfl hid
            · exact hc2
          have hkeys := branchEntry_keys nets nv br entry hE
          rw [lookup_skip c.id entry tail
            (fun kv hkv => by rw [hkeys kv hkv]; exact hid)]
          exact ih tail hT c ht hc2
            fun b hb hbid => huniq b (by simp [hb]) hbid

/-- Claim C10: for every eligible payload (with the caller-guaranteed unique
component ids), `solve_by_branch_current` and `solve_by_mesh_current`
delegate to `solve_by_node_voltage` — they propagate its errors unchanged
and return exactly its `node_voltages` map — but their `branch_currents`
maps assign the constant `0.0` to every independent DC voltage source
instead of the solved branch-current unknown. -/
theorem branch_and_mesh_delegate (bs : QMat → QVec → Except SolveErr QVec)
    (pv : QMat → QVec → QVec) (p : SimulationPayload)
    (helig : is_resistive_circuit p = true)
    (hnd : (p.components.map ComponentPayload.id).Nodup) :
    (∀ e, solve_by_node_voltage bs pv p = Except.error e →
      solve_by_branch_current bs pv p = Except.error e ∧
      solve_by_mesh_current bs pv p = Except.error e) ∧
    (∀ rn rb, solve_by_node_voltage bs pv p = Except.ok rn →
      solve_by_branch_current bs pv p = Except.ok rb →
      rb.node_voltages = rn.node_voltages ∧
      ∀ c ∈ p.components, c.type = "vsource_dc" →
        rb.branch_currents.lookup c.id = some 0) ∧
    (∀ rn rm, solve_by_node_voltage bs pv p = Except.ok rn →
      solve_by_mesh_current bs pv p = Except.ok rm →
      rm.node_voltages = rn.node_voltages ∧
      ∀ c ∈ p.components, c.type = "vsource_dc" →
        rm.branch_currents.lookup c.id = some 0) := by
  have hinj := id_inj_of_nodup p.components hnd
  have hbranch : ∀ c ∈ p.components, c.type = "vsource_dc" →
      c ∈ p.components.filter (fun c => c.type = "resistor")
        ++ p.components.filter (fun c => c.type = "vsource_dc")
        ++ p.components.filter (fun c => c.type = "isource_dc") := by
    intro c hcm hct
    refine List.mem_append.mpr (Or.inl (List.mem_append.mpr (Or.inr ?_)))
    exact List.mem_filter.mpr ⟨hcm, by simp [hct]⟩
  have huniq : ∀ c ∈ p.components, c.type = "vsource_dc" →
      ∀ br ∈ p.components.filter (fun c => c.type = "resistor")
        ++ p.components.filter (fun c => c.type = "vsource_dc")
        ++ p.components.filter (fun c => c.type = "isource_dc"),
      br.id = c.id → br.type = "vsource_dc" := by
    intro c hcm hct br hbr hbid
    have hbm : br ∈ p.components := by
      rcases List.mem_append.mp hbr with h12 | h3
      · rcases List.mem_append.mp h12 with h1 | h2
        · exact List.mem_of_mem_filter h1
        · exact List.mem_of_mem_filter h2
      · exact List.mem_of_mem_filter h3
    rw [hinj br hbm c hcm hbid]
    exact hct
  refine ⟨?_, ?_, ?_⟩
  · intro e hNV
    constructor
    · unfold solve_by_branch_current
      rw [if_neg (by simp [helig])]
      simp only [hNV, error_bind]
    · unfold solve_by_mesh_current
      rw [if_neg (by simp [helig])]
      simp only [hNV, error_bind]
  · intro rn rb hNV hBC
    unfold solve_by_branch_current at hBC
    rw [if_neg (by simp [helig])] at hBC
    simp only [hNV, ok_bind] at hBC
    cases hB : branchCurrentsFromNodes p.nets rn.node_voltages
        (p.components.filter (fun c => c.type = "resistor")
          ++ p.components.filter (fun c => c.type = "vsource_dc")
          ++ p.components.filter (fun c => c.type = "isource_dc")) with
    | error err => rw [hB] at hBC; simp at hBC
    | ok bc =>
      rw [hB] at hBC
      simp only [ok_bind, pure_ok, Except.ok.injEq] at hBC
      subst hBC
      exact ⟨rfl, fun c hcm hct => bcfn_vsource_lookup _ _ _ _ hB c hct
        (hbranch c hcm hct) (huniq c hcm hct)⟩
  · intro rn rm hNV hMC
    unfold solve_by_mesh_current at hMC
    rw [if_neg (by simp [helig])] at hMC
    simp only [hNV, ok_bind] at hMC
    cases hB : branchCurrentsFromNodes p.nets rn.node_voltages
        (p.components.filter (fun c => c.type = "resistor")
          ++ p.components.filter (fun c => c.type = "vsource_dc")
          ++ p.components.filter (fun c => c.type = "isource_dc")) with
    | error err => rw [hB] at hMC; simp at hMC
    | ok bc =>
      rw [hB] at hMC
      simp only [ok_bind, pure_ok, Except.ok.injEq] at hMC
      subst hMC
      exact ⟨rfl, fun c hcm hct => bcfn_vsource_lookup _ _ _ _ hB c hct
        (hbranch c hcm hct) (huniq c hcm hct)⟩

/-- Witness for C10: on the voltage divider, the delegating methods return
the node-voltage map of `solve_by_node_voltage` but report the source
current as `0.0` (the node-voltage method itself reports `-3/1000`). -/
theorem branch_and_mesh_delegate_witness :
    (SolveResult.node_voltages
        ⟨[("gnd", 0), ("n1", 6), ("vin", 9)],
         [("R1", 1 / 1000), ("R2", 1 / 1000), ("V1", 0)]⟩
      = SolveResult.node_voltages
        ⟨[("gnd", 0), ("n1", 6), ("vin", 9)],
         [("R1", 1 / 1000), ("R2", 1 / 1000), ("V1", -(3 / 1000))]⟩) ∧
    List.lookup "V1"
        (SolveResult.branch_currents
          ⟨[("gnd", 0), ("n1", 6), ("vin", 9)],
           [("R1", 1 / 1000), ("R2", 1 / 1000), ("V1", 0)]⟩) = some 0 := by
  have h := (branch_and_mesh_delegate bsDiv pvZero pDivider (by decide)
      (by decide)).2.1
    ⟨[("gnd", 0), ("n1", 6), ("vin", 9)],
     [("R1", 1 / 1000), ("R2", 1 / 1000), ("V1", -(3 / 1000))]⟩
    ⟨[("gnd", 0), ("n1", 6), ("vin", 9)],
     [("R1", 1 / 1000), ("R2", 1 / 1000), ("V1", 0)]⟩
    (by with_unfolding_all rfl) (by with_unfolding_all rfl)
  exact ⟨h.1, h.2 ⟨"V1", "vsource_dc", [("dc", 9)],
    [("pos", "vin"), ("neg", "gnd")]⟩ (by decide) (by decide)⟩

/-! ## Claim C8: duplicate-branch regularization -/

theorem markDups_spec :
    ∀ (vrows : List ComponentPayload) (keys : List (String × String))
      (flags : List Bool) (seen : List (String × String)),
      List.Forall₂ (fun v key => branchKey v = Except.ok key) vrows keys →
      markDups seen vrows = Except.ok flags →
      ∀ k : ℕ, (flags[k]? = some true ↔
        ∃ key, keys[k]? = some key ∧
          (key ∈ seen ∨ ∃ k' < k, keys[k']? = some key)) := by
  intro vrows
  induction vrows with
  | nil =>
    intro keys flags seen hf hm k
    cases hf
    simp only [markDups, Except.ok.injEq] at hm
    subst hm
    simp
  | cons v vs ih =>
    intro keys flags seen hf hm k
    cases hf with
    | cons hkey hrest =>
      rename_i b ks
      simp only [markDups] at hm
      rw [hkey] at hm
      simp only [ok_bind] at hm
      by_cases hmem : b ∈ seen
      · simp only [hmem, decide_True, if_true] at hm
        cases hT : markDups seen vs with
        | error e => rw [hT] at hm; simp at hm
        | ok tail =>
          rw [hT] at hm
          simp only [ok_bind, pure_ok, Except.ok.injEq] at hm
          subst hm
          match k with
          | 0 =>
            simp only [List.getElem?_cons_zero, Option.some.injEq]
            exact ⟨fun _ => ⟨b, by trivial, Or.inl hmem⟩, fun _ => by trivial⟩
          | Nat.succ k =>
            simp only [List.getElem?_cons_succ]
            rw [ih ks tail seen hrest hT k]
            constructor
            · rintro ⟨key, hk, hin | ⟨k', hlt, hk'⟩⟩
              · exact ⟨key, hk, Or.inl hin⟩
              · exact ⟨key, hk, Or.inr ⟨k' + 1, Nat.succ_lt_succ hlt, by
                  simpa using hk'⟩⟩
            · rintro ⟨key, hk, hin | ⟨k', hlt, hk'⟩⟩
              · exact ⟨key, hk, Or.inl hin⟩
              · match k', hlt, hk' with
                | 0, _, hk' =>
                  simp only [List.getElem?_cons_zero, Option.some.injEq] at hk'
                  exact ⟨key, hk, Or.inl (hk' ▸ hmem)⟩
                | Nat.succ k'', hlt, hk' =>
                  simp only [List.getElem?_cons_succ] at hk'
                  exact ⟨key, hk, Or.inr ⟨k'', Nat.lt_of_succ_lt_succ hlt,
                    hk'⟩⟩
      · simp only [hmem, decide_False, if_false] at hm
        cases hT : markDups (seen ++ [b]) vs with
        | error e => rw [hT] at hm; simp at hm
        | ok tail =>
          rw [hT] at hm
          simp only [ok_bind, pure_ok, Except.ok.injEq] at hm
          subst hm
          match k with
          | 0 =>
            simp only [List.getElem?_cons_zero, Option.some.injEq]
            constructor
            · intro h
              exact absurd h (by decide)
            · rintro ⟨key, hk, hin | ⟨k', hlt, hk'⟩⟩
              · exact absurd (hk ▸ hin) hmem
              · exact absurd hlt (Nat.not_lt_zero k')
          | Nat.succ k =>
            simp only [List.getElem?_cons_succ]
            rw [ih ks tail (seen ++ [b]) hrest hT k]
            constructor
            · rintro ⟨key, hk, hin | ⟨k', hlt, hk'⟩⟩
              · rcases List.mem_append.mp hin with h | h
                · exact ⟨key, hk, Or.inl h⟩
                · simp only [List.mem_singleton] at h
                  exact ⟨key, hk, Or.inr ⟨0, Nat.succ_pos k, by simp [h]⟩⟩
              · exact ⟨key, hk, Or.inr ⟨k' + 1, Nat.succ_lt_succ hlt, by
                  simpa using hk'⟩⟩
            · rintro ⟨key, hk, hin | ⟨k', hlt, hk'⟩⟩
              · exact ⟨key, hk, Or.inl (List.mem_append.mpr (Or.inl hin))⟩
              · match k', hlt, hk' with
                | 0, _, hk' =>
                  simp only [List.getElem?_cons_zero, Option.some.injEq] at hk'
                  exact ⟨key, hk, Or.inl (List.mem_append.mpr (Or.inr (by
                    simp [hk'])))⟩
                | Nat.succ k'', hlt, hk' =>
                  simp only [List.getElem?_cons_succ] at hk'
                  exact ⟨key, hk, Or.inr ⟨k'', Nat.lt_of_succ_lt_succ hlt,
                    hk'⟩⟩

theorem applyReg_other (n : ℕ) :
    ∀ (flags : List Bool) (s : ℕ) (A : QMat) (i j : ℕ),
      (∀ k < flags.length, ¬ (i = n + (s + k) ∧ j = i)) →
      applyReg n s flags A i j = A i j := by
  intro flags
  induction flags with
  | nil =>
    intro s A i j h
    rfl
  | cons fl fls ih =>
    intro s A i j h
    simp only [applyReg]
    rw [ih (s + 1) _ i j (by
      intro k hk hc
      obtain ⟨h1, h2⟩ := hc
      refine h (k + 1) (by simp only [List.length_cons]; omega) ⟨by omega, h2⟩)]
    cases fl with
    | false => simp
    | true =>
      have h0 := h 0 (by simp)
      rw [if_pos rfl, addA_apply, if_neg, add_zero]
      rintro ⟨hi, hj⟩
      exact h0 ⟨by omega, by omega⟩

theorem applyReg_diag (n : ℕ) :
    ∀ (flags : List Bool) (s : ℕ) (A : QMat) (k : ℕ), k < flags.length →
      applyReg n s flags A (n + (s + k)) (n + (s + k))
        = A (n + (s + k)) (n + (s + k))
          + (if flags[k]? = some true then eps12 else 0) := by
  intro flags
  induction flags with
  | nil =>
    intro s A k hk
    simp at hk
  | cons fl fls ih =>
    intro s A k hk
    match k with
    | 0 =>
      simp only [applyReg, Nat.add_zero, List.getElem?_cons_zero]
      rw [applyReg_other n fls (s + 1) _ (n + s) (n + s) (by
        intro k' hk' hc
        obtain ⟨h1, -⟩ := hc
        omega)]
      cases fl with
      | true =>
        rw [if_pos rfl, addA_apply, if_pos ⟨rfl, rfl⟩]
        simp
      | false =>
        rw [if_neg (by simp)]
        simp
    | Nat.succ k' =>
      simp only [applyReg, List.getElem?_cons_succ]
      have hx : n + (s + (k' + 1)) = n + ((s + 1) + k') := by omega
      rw [hx]
      rw [ih (s + 1) _ k' (by
        simp only [List.length_cons] at hk
        omega)]
      congr 1
      cases fl with
      | false => simp
      | true =>
        rw [if_pos rfl, addA_apply, if_neg (by omega), add_zero]

/-- Claim C8: a voltage-defining branch row is flagged as a duplicate
exactly when an earlier branch row connects the identical unordered node
pair; every flagged row receives exactly `+1e-12` on the diagonal entry of
its own constraint row `n+k`, and every other matrix entry — in
particular the whole row of any branch whose node pair is unique — is
left unperturbed. -/
theorem duplicate_branch_regularization
    (vrows : List ComponentPayload) (keys : List (String × String))
    (flags : List Bool) (n : ℕ) (A : QMat)
    (hf : List.Forall₂ (fun v key => branchKey v = Except.ok key) vrows keys)
    (hm : markDups [] vrows = Except.ok flags) :
    (∀ k : ℕ, flags[k]? = some true ↔
      ∃ key, keys[k]? = some key ∧ ∃ k' < k, keys[k']? = some key) ∧
    (∀ k : ℕ, k < flags.length →
      applyReg n 1 flags A (n + (1 + k)) (n + (1 + k))
        = A (n + (1 + k)) (n + (1 + k))
          + (if flags[k]? = some true then eps12 else 0)) ∧
    (∀ i j : ℕ, (∀ k < flags.length, ¬ (i = n + (1 + k) ∧ j = i)) →
      applyReg n 1 flags A i j = A i j) := by
  refine ⟨?_, fun k hk => applyReg_diag n flags 1 A k hk,
    fun i j h => applyReg_other n flags 1 A i j h⟩
  intro k
  rw [markDups_spec vrows keys flags [] hf hm k]
  simp

/-- Witness for C8: three branches across the pairs `(a,b)`, `(b,a)`,
`(a,c)` — the second is flagged as a duplicate of the first and its row
diagonal gains exactly `1e-12`; the first and third stay untouched. -/
theorem duplicate_branch_regularization_witness :
    (([false, true, false] : List Bool)[1]? = some true) ∧
    applyReg 1 1 [false, true, false] (fun _ _ => 0) (1 + (1 + 1)) (1 + (1 + 1))
      = eps12 ∧
    applyReg 1 1 [false, true, false] (fun _ _ => 0) (1 + (1 + 0)) (1 + (1 + 0))
      = 0 := by
  have h := duplicate_branch_regularization
    [⟨"v1", "vsource_dc", [("dc", 1)], [("pos", "a"), ("neg", "b")]⟩,
     ⟨"v2", "vsource_dc", [("dc", 2)], [("pos", "b"), ("neg", "a")]⟩,
     ⟨"v3", "vsource_dc", [("dc", 3)], [("pos", "a"), ("neg", "c")]⟩]
    [("a", "b"), ("a", "b"), ("a", "c")] [false, true, false] 1 (fun _ _ => 0)
    (List.Forall₂.cons (by decide) (List.Forall₂.cons (by decide)
      (List.Forall₂.cons (by decide) List.Forall₂.nil)))
    (by decide)
  refine ⟨(h.1 1).mpr ⟨("a", "b"), by decide, 0, by decide, by decide⟩,
    ?_, ?_⟩
  · rw [h.2.1 1 (by decide)]
    with_unfolding_all rfl
  · rw [h.2.1 0 (by decide)]
    with_unfolding_all rfl

/-! ## Claim C2: VCVS stamping -/

theorem stampKclPair_spec (gnd : String) (nidx : String → Option ℕ)
    (s : String) (ix : ℕ) (h : s ≠ gnd → nidx s = some ix) (A : QMat)
    (c r : ℕ) (w : ℚ) :
    stampKclPair gnd nidx s c r w A
      = Except.ok (fun i' j' => A i' j'
          + (if s ≠ gnd ∧ i' = ix ∧ j' = c then w else 0)
          + (if s ≠ gnd ∧ i' = r ∧ j' = ix then w else 0)) := by
  unfold stampKclPair
  by_cases hs : s = gnd
  · rw [if_neg (by simp [hs])]
    simp only [pure_ok, Except.ok.injEq]
    funext i' j'
    simp [hs]
  · rw [if_pos hs]
    have hx : idxE nidx s = Except.ok ix := by simp [idxE, h hs]
    rw [hx]
    simp only [ok_bind, pure_ok, Except.ok.injEq]
    funext i' j'
    simp [addA_apply, hs]

theorem stampRowSingle_spec (gnd : String) (nidx : String → Option ℕ)
    (s : String) (ix : ℕ) (h : s ≠ gnd → nidx s = some ix) (A : QMat)
    (r : ℕ) (w : ℚ) :
    stampRowSingle gnd nidx s r w A
      = Except.ok (fun i' j' => A i' j'
          + (if s ≠ gnd ∧ i' = r ∧ j' = ix then w else 0)) := by
  unfold stampRowSingle
  by_cases hs : s = gnd
  · rw [if_neg (by simp [hs])]
    simp only [pure_ok, Except.ok.injEq]
    funext i' j'
    simp [hs]
  · rw [if_pos hs]
    have hx : idxE nidx s = Except.ok ix := by simp [idxE, h hs]
    rw [hx]
    simp only [ok_bind, pure_ok, Except.ok.injEq]
    funext i' j'
    simp [addA_apply, hs]

/-- Claim C2: stamping a VCVS with output nets `p`/`q`, control nets
`cp`/`cn`, gain `g` and branch row `k` adds the voltage-source KCL
entries `A[p, n+k] += 1`, `A[q, n+k] -= 1` together with the constraint
row `A[n+k, p] += 1`, `A[n+k, q] -= 1`, `A[n+k, cp] -= g`,
`A[n+k, cn] += g`, omitting every index belonging to the ground net, and
leaves `b` unchanged (so the zero-initialized `b[n+k]` stays `0`). -/
theorem vcvs_stamp (gnd : String) (nidx vidx : String → Option ℕ)
    (cands : List ComponentPayload) (n k : ℕ) (v : ComponentPayload)
    (A : QMat) (b : QVec) (p q cp cn : String) (g : ℚ) (ip iq icp icn : ℕ)
    (hty : v.type = "vcvs")
    (hpos : v.connections.lookup "pos" = some p)
    (hneg : v.connections.lookup "neg" = some q)
    (hcp : v.connections.lookup "ctrl_p" = some cp)
    (hcn : v.connections.lookup "ctrl_n" = some cn)
    (hg : v.parameters.lookup "gain" = some g)
    (hip : p ≠ gnd → nidx p = some ip)
    (hiq : q ≠ gnd → nidx q = some iq)
    (hicp : cp ≠ gnd → nidx cp = some icp)
    (hicn : cn ≠ gnd → nidx cn = some icn) :
    stampVsrcRow gnd nidx vidx cands n k v (A, b) = Except.ok
      (fun i j => A i j
        + (if p ≠ gnd ∧ i = ip ∧ j = n + k then 1 else 0)
        + (if p ≠ gnd ∧ i = n + k ∧ j = ip then 1 else 0)
        + (if q ≠ gnd ∧ i = iq ∧ j = n + k then -1 else 0)
        + (if q ≠ gnd ∧ i = n + k ∧ j = iq then -1 else 0)
        + (if cp ≠ gnd ∧ i = n + k ∧ j = icp then -g else 0)
        + (if cn ≠ gnd ∧ i = n + k ∧ j = icn then g else 0), b) := by
  have hpos' : dget v.connections "pos" = Except.ok p := by simp [dget, hpos]
  have hneg' : dget v.connections "neg" = Except.ok q := by simp [dget, hneg]
  have hcp' : dget v.connections "ctrl_p" = Except.ok cp := by
    simp [dget, hcp]
  have hcn' : dget v.connections "ctrl_n" = Except.ok cn := by
    simp [dget, hcn]
  have hg' : dget v.parameters "gain" = Except.ok g := by simp [dget, hg]
  simp only [stampVsrcRow, hpos', hneg', ok_bind]
  rw [stampKclPair_spec gnd nidx p ip hip A (n + k) (n + k) 1]
  simp only [ok_bind]
  rw [stampKclPair_spec gnd nidx q iq hiq _ (n + k) (n + k) (-1)]
  simp only [ok_bind]
  rw [hty]
  rw [if_neg (by decide), if_pos rfl]
  rw [hg']
  simp only [ok_bind]
  rw [hcp']
  simp only [ok_bind]
  rw [hcn']
  simp only [ok_bind]
  rw [stampRowSingle_spec gnd nidx cp icp hicp _ (n + k) (-g)]
  simp only [ok_bind]
  rw [stampRowSingle_spec gnd nidx cn icn hicn _ (n + k) g]
  simp only [ok_bind, pure_ok]

/-- Witness for C2: a VCVS between four non-ground nets, stamped into the
zero matrix with `n = 4`, `k = 1`, gain `2`; the five affected entries and
the untouched right-hand side are evaluated. -/
theorem vcvs_stamp_witness :
    (stampVsrcRow "gnd" (idx1 ["a", "b", "c", "d"]) (fun _ => none) [] 4 1
        ⟨"E1", "vcvs", [("gain", 2)],
          [("pos", "a"), ("neg", "b"), ("ctrl_p", "c"), ("ctrl_n", "d")]⟩
        ((fun _ _ => 0), (fun _ => 0))).map
      (fun Ab => (Ab.1 1 5, Ab.1 5 1, Ab.1 2 5, Ab.1 5 2, Ab.1 5 3,
        Ab.1 5 4, Ab.2 5))
      = Except.ok (1, 1, -1, -1, -2, 2, 0) := by
  rw [vcvs_stamp "gnd" (idx1 ["a", "b", "c", "d"]) (fun _ => none) [] 4 1
    ⟨"E1", "vcvs", [("gain", 2)],
      [("pos", "a"), ("neg", "b"), ("ctrl_p", "c"), ("ctrl_n", "d")]⟩
    (fun _ _ => 0) (fun _ => 0) "a" "b" "c" "d" 2 1 2 3 4
    (by decide) (by decide) (by decide) (by decide) (by decide) (by decide)
    (by decide) (by decide) (by decide) (by decide)]
  with_unfolding_all rfl

/-! ## Claim C3: sensing-branch synthesis and reference-branch reuse -/

theorem dget_ok_iff {α : Type} {d : List (String × α)} {k : String} {v : α} :
    dget d k = Except.ok v ↔ d.lookup k = some v := by
  unfold dget
  cases h : d.lookup k <;> simp

/-- Counterexample to C3 as stated: the CCCS control pair `x`/`y` is spanned
by two candidates (the parallel VCVS pair), so no single unambiguous
candidate exists — yet, because neither candidate is an independent DC
source, the builder synthesizes no sensing branch and instead reuses the
first matching branch's current unknown. -/
theorem cccs_ambiguous_reuse_cex :
    vsrc_stats_between [vcvsX1, vcvsX2] "x" "y" = Except.ok (2, false) ∧
    senseList "_sense_cccs_" [vcvsX1, vcvsX2] [cccsF1] = Except.ok [] ∧
    find_vsrc_between [vcvsX1, vcvsX2] "x" "y"
      = Except.ok (some ("E1", 1)) := by
  refine ⟨by with_unfolding_all rfl, by with_unfolding_all rfl,
    by with_unfolding_all rfl⟩

theorem senseList_mem (pre : String) (cands : List ComponentPayload) :
    ∀ (lst sl : List ComponentPayload),
      senseList pre cands lst = Except.ok sl →
      ∀ s, (s ∈ sl ↔ ∃ c ∈ lst, ∃ cp cn cnt hi,
        c.connections.lookup "ctrl_p" = some cp ∧
        c.connections.lookup "ctrl_n" = some cn ∧
        vsrc_stats_between cands cp cn = Except.ok (cnt, hi) ∧
        (cnt = 0 ∨ (hi = true ∧ 1 < cnt)) ∧ s = mkSense pre c cp cn) := by
  intro lst
  induction lst with
  | nil =>
    intro sl hs s
    simp only [senseList, Except.ok.injEq] at hs
    subst hs
    simp
  | cons c cs ih =>
    intro sl hs s
    simp only [senseList] at hs
    cases hcp : dget c.connections "ctrl_p" with
    | error e => rw [hcp] at hs; simp at hs
    | ok cp0 =>
      rw [hcp] at hs
      simp only [ok_bind] at hs
      cases hcn : dget c.connections "ctrl_n" with
      | error e => rw [hcn] at hs; simp at hs
      | ok cn0 =>
        rw [hcn] at hs
        simp only [ok_bind] at hs
        cases hst : vsrc_stats_between cands cp0 cn0 with
        | error e => rw [hst] at hs; simp at hs
        | ok st0 =>
          obtain ⟨cnt0, hi0⟩ := st0
          rw [hst] at hs
          simp only [ok_bind] at hs
          cases hT : senseList pre cands cs with
          | error e => rw [hT] at hs; simp at hs
          | ok tail =>
            rw [hT] at hs
            simp only [ok_bind] at hs
            split_ifs at hs with hcond
            · simp only [pure_ok, Except.ok.injEq] at hs
              subst hs
              simp only [List.mem_cons]
              constructor
              · rintro (rfl | hmem)
                · exact ⟨c, by simp, cp0, cn0, cnt0, hi0, dget_ok_iff.mp hcp,
                    dget_ok_iff.mp hcn, hst, hcond, rfl⟩
                · obtain ⟨c', hc', rest⟩ := (ih tail hT s).mp hmem
                  exact ⟨c', by simp [hc'], rest⟩
              · rintro ⟨c', hc', cp', cn', cnt', hi', h1, h2, h3, h4, rfl⟩
                rcases hc' with rfl | hc2
                · have e1 : cp' = cp0 :=
                    Option.some.inj (h1.symm.trans (dget_ok_iff.mp hcp))
                  have e2 : cn' = cn0 :=
                    Option.some.inj (h2.symm.trans (dget_ok_iff.mp hcn))
                  subst e1
                  subst e2
                  exact Or.inl rfl
                · exact Or.inr ((ih tail hT _).mpr
                    ⟨c', hc2, cp', cn', cnt', hi', h1, h2, h3, h4, rfl⟩)
            · simp only [pure_ok, Except.ok.injEq] at hs
              subst hs
              rw [ih tail hT s]
              constructor
              · rintro ⟨c', hc', rest⟩
                exact ⟨c', by simp [hc'], rest⟩
              · rintro ⟨c', hc', cp', cn', cnt', hi', h1, h2, h3, h4, h5⟩
                have hc'' : c' = c ∨ c' ∈ cs := by
                  first
                  | exact hc'
                  | exact List.mem_cons.mp hc'
                rcases hc'' with rfl | hc2
                · have e1 : cp' = cp0 :=
                    Option.some.inj (h1.symm.trans (dget_ok_iff.mp hcp))
                  have e2 : cn' = cn0 :=
                    Option.some.inj (h2.symm.trans (dget_ok_iff.mp hcn))
                  subst e1
                  subst e2
                  have e3 : (cnt', hi') = (cnt0, hi0) :=
                    Except.ok.inj (h3.symm.trans hst)
                  obtain ⟨e4, e5⟩ := Prod.mk.injEq .. ▸ e3
                  exact absurd (by rw [← e4, ← e5]; exact h4) hcond
                · exact ⟨c', hc2, cp', cn', cnt', hi', h1, h2, h3, h4, h5⟩

theorem find_vsrc_cons (cands : List ComponentPayload) (v : ComponentPayload)
    (cp cn p q : String)
    (hp : v.connections.lookup "pos" = some p)
    (hq : v.connections.lookup "neg" = some q) :
    (p = cp ∧ q = cn →
      find_vsrc_between (v :: cands) cp cn = Except.ok (some (v.id, 1))) ∧
    (¬ (p = cp ∧ q = cn) → (p = cn ∧ q = cp) →
      find_vsrc_between (v :: cands) cp cn = Except.ok (some (v.id, -1))) ∧
    (¬ (p = cp ∧ q = cn) → ¬ (p = cn ∧ q = cp) →
      find_vsrc_between (v :: cands) cp cn
        = find_vsrc_between cands cp cn) := by
  have hp' : dget v.connections "pos" = Except.ok p := dget_ok_iff.mpr hp
  have hq' : dget v.connections "neg" = Except.ok q := dget_ok_iff.mpr hq
  refine ⟨?_, ?_, ?_⟩
  · intro h
    simp only [find_vsrc_between, hp', hq', ok_bind]
    rw [if_pos h]
    rfl
  · intro h1 h2
    simp only [find_vsrc_between, hp', hq', ok_bind]
    rw [if_neg h1, if_pos h2]
    rfl
  · intro h1 h2
    simp only [find_vsrc_between, hp', hq', ok_bind]
    rw [if_neg h1, if_neg h2]

/-- Claim C3 (amended): a sensing branch is synthesized for a CCVS/CCCS
control pair exactly when the pair has no voltage-defining candidate at
all, or has more than one candidate among which an independent DC source
occurs; in every other case — including several candidates none of which
is independent — the first candidate in the search order is reused, with
sign `+1` for matching orientation and `-1` for reversed orientation. -/
theorem sensing_and_reuse_spec (pre : String) (cands : List ComponentPayload) :
    (∀ lst sl, senseList pre cands lst = Except.ok sl →
      ∀ s, (s ∈ sl ↔ ∃ c ∈ lst, ∃ cp cn cnt hi,
        c.connections.lookup "ctrl_p" = some cp ∧
        c.connections.lookup "ctrl_n" = some cn ∧
        vsrc_stats_between cands cp cn = Except.ok (cnt, hi) ∧
        (cnt = 0 ∨ (hi = true ∧ 1 < cnt)) ∧ s = mkSense pre c cp cn)) ∧
    (∀ (rest : List ComponentPayload) (v : ComponentPayload) (cp cn p q :
        String), v.connections.lookup "pos" = some p →
      v.connections.lookup "neg" = some q →
      (p = cp ∧ q = cn →
        find_vsrc_between (v :: rest) cp cn = Except.ok (some (v.id, 1))) ∧
      (¬ (p = cp ∧ q = cn) → (p = cn ∧ q = cp) →
        find_vsrc_between (v :: rest) cp cn = Except.ok (some (v.id, -1))) ∧
      (¬ (p = cp ∧ q = cn) → ¬ (p = cn ∧ q = cp) →
        find_vsrc_between (v :: rest) cp cn
          = find_vsrc_between rest cp cn)) :=
  ⟨fun lst sl hs s => senseList_mem pre cands lst sl hs s,
   fun rest v cp cn p q hp hq => find_vsrc_cons rest v cp cn p q hp hq⟩

/-- Witness for C3 (amended): with no candidate at all the sensing branch
for the CCCS is synthesized, and a reversed-orientation source is reused
with sign `-1`. -/
theorem sensing_and_reuse_witness :
    mkSense "_sense_cccs_" cccsF1 "x" "y"
      ∈ [mkSense "_sense_cccs_" cccsF1 "x" "y"] ∧
    find_vsrc_between [vsrcRev] "x" "y" = Except.ok (some ("E9", -1)) := by
  have h := sensing_and_reuse_spec "_sense_cccs_" []
  constructor
  · exact (h.1 [cccsF1] [mkSense "_sense_cccs_" cccsF1 "x" "y"]
      (by with_unfolding_all rfl) (mkSense "_sense_cccs_" cccsF1 "x" "y")).mpr
      ⟨cccsF1, by simp, "x", "y", 0, false, by decide, by decide,
        by with_unfolding_all rfl, Or.inl rfl, rfl⟩
  · exact ((h.2 [] vsrcRev "x" "y" "y" "x" (by decide) (by decide)).2.1
      (by decide) (by decide))

/-! ## Claim C4: branch-current extraction for controlled sources -/

/-- Counterexample to C4 as stated: in `pC4` (whose exact solution `xC4`
satisfies the assembled system, as the residual check confirms) the CCVS
`H1` is reported as its own solved branch-current unknown `x[n+2] = 1/4`,
not as gain × reference current `2 × (-1/2) = -1`. -/
theorem ccvs_own_current_cex :
    bcOf (solve_by_node_voltage bsC4 pvZero pC4) "H1" = some (1 / 4) ∧
    bcOf (solve_by_node_voltage bsC4 pvZero pC4) "V1" = some (-(1 / 2)) ∧
    (assembleMNA pC4).map (fun sys => solvesSystem sys xC4)
      = Except.ok true ∧
    (1 : ℚ) / 4 ≠ 2 * (1 * (-(1 / 2))) := by
  refine ⟨by with_unfolding_all rfl, by with_unfolding_all rfl,
    by with_unfolding_all rfl, by norm_num⟩

theorem extractVsrc_mem (n : ℕ) (x : QVec) :
    ∀ (vs : List ComponentPayload) (k j : ℕ) (v : ComponentPayload),
      vs[j]? = some v →
      (v.type = "vsource_dc" ∨ v.type = "vcvs" ∨ v.type = "ccvs") →
      v.id.startsWith "_sense_ccvs_" = false →
      v.id.startsWith "_sense_cccs_" = false →
      (v.id, x (n + (k + j))) ∈ extractVsrcCurrents n x k vs := by
  intro vs
  induction vs with
  | nil =>
    intro k j v hj
    simp at hj
  | cons v0 rest ih =>
    intro k j v hj hty hs1 hs2
    match j with
    | 0 =>
      simp only [List.getElem?_cons_zero, Option.some.injEq] at hj
      subst hj
      simp only [extractVsrcCurrents]
      rw [if_pos ⟨hty, by simp [hs1], by simp [hs2]⟩]
      simp
    | Nat.succ j' =>
      simp only [List.getElem?_cons_succ] at hj
      have hmem := ih (k + 1) j' v hj hty hs1 hs2
      have hx : k + 1 + j' = k + (j' + 1) := by omega
      rw [hx] at hmem
      simp only [extractVsrcCurrents]
      exact List.mem_append.mpr (Or.inr hmem)

theorem extractCccs_mem (n : ℕ) (x : QVec) (cands : List ComponentPayload)
    (vidx : String → Option ℕ) :
    ∀ (lst : List ComponentPayload) (out : List (String × ℚ))
      (f : ComponentPayload) (cp cn vid : String) (sgn g : ℚ) (jref : ℕ),
      extractCccsCurrents cands vidx n x lst = Except.ok out →
      f ∈ lst →
      f.connections.lookup "ctrl_p" = some cp →
      f.connections.lookup "ctrl_n" = some cn →
      find_vsrc_between cands cp cn = Except.ok (some (vid, sgn)) →
      vidx vid = some jref →
      f.parameters.lookup "gain" = some g →
      (f.id, g * sgn * x (n + jref)) ∈ out := by
  intro lst
  induction lst with
  | nil =>
    intro out f cp cn vid sgn g jref hout hf
    simp at hf
  | cons f0 rest ih =>
    intro out f cp cn vid sgn g jref hout hf hcp hcn hfind hvid hg
    simp only [extractCccsCurrents] at hout
    cases hcp0 : dget f0.connections "ctrl_p" with
    | error e => rw [hcp0] at hout; simp at hout
    | ok cp0 =>
      rw [hcp0] at hout
      simp only [ok_bind] at hout
      cases hcn0 : dget f0.connections "ctrl_n" with
      | error e => rw [hcn0] at hout; simp at hout
      | ok cn0 =>
        rw [hcn0] at hout
        simp only [ok_bind] at hout
        cases hfv : find_vsrc_between cands cp0 cn0 with
        | error e => rw [hfv] at hout; simp at hout
        | ok fv0 =>
          rw [hfv] at hout
          simp only [ok_bind] at hout
          cases hT : extractCccsCurrents cands vidx n x rest with
          | error e => rw [hT] at hout; simp at hout
          | ok tail =>
            rw [hT] at hout
            simp only [ok_bind] at hout
            rcases List.mem_cons.mp hf with rfl | hf2
            · -- f is the head element: all its lookups are determined
              have e1 : cp0 = cp :=
                Option.some.inj ((dget_ok_iff.mp hcp0).symm.trans hcp)
              have e2 : cn0 = cn :=
                Option.some.inj ((dget_ok_iff.mp hcn0).symm.trans hcn)
              subst e1
              subst e2
              have e3 : fv0 = some (vid, sgn) :=
                Except.ok.inj (hfv.symm.trans hfind)
              subst e3
              simp only at hout
              rw [show idxE vidx vid = Except.ok jref by
                simp [idxE, hvid]] at hout
              simp only [ok_bind] at hout
              rw [dget_ok_iff.mpr hg] at hout
              simp only [ok_bind, pure_ok, Except.ok.injEq] at hout
              subst hout
              simp
            · -- f occurs further down; its entry is in the tail
              have htail := ih tail f cp cn vid sgn g jref hT hf2 hcp hcn
                hfind hvid hg
              cases fv0 with
              | some pr =>
                obtain ⟨vid0, sgn0⟩ := pr
                simp only at hout
                cases hje : idxE vidx vid0 with
                | error e => rw [hje] at hout; simp at hout
                | ok j0 =>
                  rw [hje] at hout
                  simp only [ok_bind] at hout
                  cases hg0 : dget f0.parameters "gain" with
                  | error e => rw [hg0] at hout; simp at hout
                  | ok g0 =>
                    rw [hg0] at hout
                    simp only [ok_bind, pure_ok, Except.ok.injEq] at hout
                    subst hout
                    exact List.mem_cons_of_mem _ htail
              | none =>
                simp only at hout
                cases hsid : vidx ("_sense_cccs_" ++ f0.id) with
                | none =>
                  rw [hsid] at hout
                  simp only [pure_ok, Except.ok.injEq] at hout
                  subst hout
                  exact htail
                | some j0 =>
                  rw [hsid] at hout
                  simp only at hout
                  cases hg0 : dget f0.parameters "gain" with
                  | error e => rw [hg0] at hout; simp at hout
                  | ok g0 =>
                    rw [hg0] at hout
                    simp only [ok_bind, pure_ok, Except.ok.injEq] at hout
                    subst hout
                    exact List.mem_cons_of_mem _ htail

/-- Claim C4 (amended): in the branch-current extraction, every
`vsource_dc`, VCVS and CCVS row (excluding synthesized sensing branches)
reports its own solved branch-current unknown `x[n+k]`; only a CCCS is
reported as gain × (±1) × the solved current of the reference branch
found between its control nets. -/
theorem branch_current_extraction (n : ℕ) (x : QVec) :
    (∀ (vs : List ComponentPayload) (k j : ℕ) (v : ComponentPayload),
      vs[j]? = some v →
      (v.type = "vsource_dc" ∨ v.type = "vcvs" ∨ v.type = "ccvs") →
      v.id.startsWith "_sense_ccvs_" = false →
      v.id.startsWith "_sense_cccs_" = false →
      (v.id, x (n + (k + j))) ∈ extractVsrcCurrents n x k vs) ∧
    (∀ (cands lst : List ComponentPayload) (vidx : String → Option ℕ)
        (out : List (String × ℚ)) (f : ComponentPayload)
        (cp cn vid : String) (sgn g : ℚ) (jref : ℕ),
      extractCccsCurrents cands vidx n x lst = Except.ok out →
      f ∈ lst →
      f.connections.lookup "ctrl_p" = some cp →
      f.connections.lookup "ctrl_n" = some cn →
      find_vsrc_between cands cp cn = Except.ok (some (vid, sgn)) →
      vidx vid = some jref →
      f.parameters.lookup "gain" = some g →
      (f.id, g * sgn * x (n + jref)) ∈ out) :=
  ⟨fun vs k j v hj hty hs1 hs2 =>
      extractVsrc_mem n x vs k j v hj hty hs1 hs2,
   fun cands lst vidx out f cp cn vid sgn g jref hout hf hcp hcn hfind
      hvid hg =>
      extractCccs_mem n x cands vidx lst out f cp cn vid sgn g jref hout
        hf hcp hcn hfind hvid hg⟩

/-- Witness for C4 (amended): a VCVS row reports its own unknown, and a
CCCS controlled through the reversed source `E9` reports
`gain × (-1) × x[n + 1]`. -/
theorem branch_current_extraction_witness :
    ((("E1" : String), xIdx (4 + (1 + 0)))
      ∈ extractVsrcCurrents 4 xIdx 1 [vcvsX1]) ∧
    ((("F1" : String), (5 : ℚ) * (-1) * xIdx (4 + 1))
      ∈ [(("F1" : String), (-25 : ℚ))]) := by
  have h := branch_current_extraction 4 xIdx
  constructor
  · exact h.1 [vcvsX1] 1 0 vcvsX1 (by decide) (by decide) (by decide)
      (by decide)
  · exact h.2 [vsrcRev] [cccsF1] vidxW [(("F1" : String), (-25 : ℚ))]
      cccsF1 "x" "y" "E9" (-1) 5 1 (by with_unfolding_all rfl) (by simp)
      (by decide) (by decide) (by with_unfolding_all rfl) (by decide)
      (by decide)

end JCircuit
